import Mathlib

/-!
Verification of the climate-tweet sentiment analytics core
(`sentiment_analyzer.py`): sentiment distribution, tokenization and theme
extraction, text-pattern statistics, seeded polarity sampling, and the
rule-based recommendation engine.  Numbers are modelled exactly: counts as
`Nat`, sentiment codes as `Int`, statistics as `ℚ` (floating point carried
out in exact rational arithmetic; a pandas/NumPy `NaN` result is `none`).
-/

namespace SentimentAnalysis

/-- One labeled tweet record, as produced by the ingestion collaborator:
`message`, `sentiment` code, `sentiment_label`, `text_length`, `word_count`. -/
structure Record where
  message : String
  sentiment : Int
  sentiment_label : String
  text_length : Nat
  word_count : Nat
deriving DecidableEq, Repr

/-! ## Tokenizer / frequency machinery (identify_key_themes, lines 75-101) -/

/-- The stopword set of `identify_key_themes` (source line 82), transcribed
verbatim (the Python `set` literal contains a few repeated words; membership
is unaffected). -/
def stop_words : List String :=
  ["the", "a", "an", "and", "or", "but", "in", "on", "at", "to", "for",
   "of", "with", "by", "is", "are", "was", "were", "be", "been", "have",
   "has", "had", "do", "does", "did", "will", "would", "could", "should",
   "may", "might", "can", "this", "that", "these", "those", "i", "you",
   "he", "she", "it", "we", "they", "me", "him", "her", "us", "them",
   "my", "your", "his", "her", "its", "our", "their", "mine", "yours",
   "his", "hers", "ours", "theirs", "rt", "via", "http", "https", "com",
   "www", "co", "amp"]

/-- One character of `re.sub(r'[^\w\s]', ' ', text)`: a character matching
`[^\w\s]` (not a word character `\w` = alphanumeric or underscore, and not
whitespace) is replaced by a single space; every other character is kept. -/
def cleanChar (c : Char) : Char :=
  if c.isAlphanum || c = '_' || c.isWhitespace then c else ' '

/-- Python `str.split()`: split on runs of whitespace, no empty tokens.
Accumulator holds the current token reversed. -/
def splitWsAux : List Char → List Char → List (List Char)
  | [], acc => if acc.isEmpty then [] else [acc.reverse]
  | c :: cs, acc =>
      if c.isWhitespace then
        if acc.isEmpty then splitWsAux cs [] else acc.reverse :: splitWsAux cs []
      else splitWsAux cs (c :: acc)

def splitWs (cs : List Char) : List (List Char) := splitWsAux cs []

/-- The tokenizer of `identify_key_themes`:
`re.sub(r'[^\w\s]', ' ', text.lower()).split()` followed by
`[w for w in words if len(w) > 2 and w not in stop_words]`. -/
def tokenize (text : String) : List String :=
  let words := (splitWs ((text.data.map Char.toLower).map cleanChar)).map
    (fun cs => String.mk cs)
  words.filter (fun w => decide (2 < w.length) && !(stop_words.contains w))

/-- First-occurrence deduplication with an accumulator of already-seen
elements. -/
def uniqKeysAux {α : Type} [DecidableEq α] : List α → List α → List α
  | [], _ => []
  | a :: l, seen =>
      if a ∈ seen then uniqKeysAux l seen
      else a :: uniqKeysAux l (a :: seen)

/-- First-occurrence deduplication: the iteration order of a Python
`Counter`/`dict` built by counting a list. -/
def uniqKeys {α : Type} [DecidableEq α] (l : List α) : List α :=
  uniqKeysAux l []

/-- `Counter(ws)` as an association list in first-insertion order. -/
def counterItems {α : Type} [DecidableEq α] (ws : List α) : List (α × Nat) :=
  (uniqKeys ws).map (fun w => (w, ws.count w))

/-- Dictionary lookup in a counter table, defaulting to 0 for absent keys. -/
def counterGet {α : Type} [DecidableEq α] (t : List (α × Nat)) (w : α) : Nat :=
  match t.find? (fun p => p.1 = w) with
  | some p => p.2
  | none => 0

/-- Comparator of `Counter.most_common`: descending count. -/
def byCountDesc {α : Type} : (α × Nat) → (α × Nat) → Prop := fun p q => q.2 ≤ p.2

instance {α : Type} : DecidableRel (byCountDesc (α := α)) :=
  fun p q => Nat.decLe q.2 p.2

/-- `Counter.most_common(n)`: the `n` highest-count entries, by descending
count (a stable sort of the first-insertion-order items). -/
def mostCommon {α : Type} [DecidableEq α] (ws : List α) (n : Nat) :
    List (α × Nat) :=
  (List.insertionSort byCountDesc (counterItems ws)).take n

/-! ### Basic lemmas about the counter machinery -/

theorem mem_uniqKeysAux {α : Type} [DecidableEq α] (l : List α) :
    ∀ (seen : List α) (a : α),
      a ∈ uniqKeysAux l seen ↔ a ∈ l ∧ a ∉ seen := by
  induction l with
  | nil => intro seen a; simp [uniqKeysAux]
  | cons b l ih =>
      intro seen a
      rw [uniqKeysAux]
      by_cases hb : b ∈ seen
      · rw [if_pos hb, ih]
        by_cases hab : a = b
        · subst hab; simp [hb]
        · simp [hab]
      · rw [if_neg hb]
        by_cases hab : a = b
        · subst hab; simp [hb]
        · simp [hab, ih]

theorem mem_uniqKeys {α : Type} [DecidableEq α] (l : List α) (a : α) :
    a ∈ uniqKeys l ↔ a ∈ l := by
  rw [uniqKeys, mem_uniqKeysAux]
  simp

theorem nodup_uniqKeysAux {α : Type} [DecidableEq α] (l : List α) :
    ∀ seen : List α, (uniqKeysAux l seen).Nodup := by
  induction l with
  | nil => intro seen; simp [uniqKeysAux]
  | cons b l ih =>
      intro seen
      rw [uniqKeysAux]
      by_cases hb : b ∈ seen
      · rw [if_pos hb]; exact ih seen
      · rw [if_neg hb]
        refine List.Nodup.cons ?_ (ih (b :: seen))
        intro hmem
        exact ((mem_uniqKeysAux l (b :: seen) b).mp hmem).2 (List.mem_cons_self b seen)

theorem nodup_uniqKeys {α : Type} [DecidableEq α] (l : List α) :
    (uniqKeys l).Nodup := nodup_uniqKeysAux l []

theorem uniqKeys_ne_nil {α : Type} [DecidableEq α] (l : List α) (h : l ≠ []) :
    uniqKeys l ≠ [] := by
  cases l with
  | nil => exact absurd rfl h
  | cons a l =>
      rw [uniqKeys, uniqKeysAux]
      simp

/-- Lookup in a key-to-value table built over a key list: the first matching
entry carries the tabulated value. -/
theorem counterGet_map {α : Type} [DecidableEq α] (keys : List α)
    (f : α → Nat) (w : α) :
    counterGet (keys.map (fun k => (k, f k))) w =
      if w ∈ keys then f w else 0 := by
  induction keys with
  | nil => simp [counterGet]
  | cons k ks ih =>
      by_cases hk : k = w
      · subst hk
        simp [counterGet, List.find?]
      · rw [counterGet, List.map_cons, List.find?]
        simp only [show (decide (k = w)) = false by simpa using hk]
        rw [show (match List.find? (fun p => decide (p.1 = w))
            (ks.map fun k => (k, f k)) with
          | some p => p.2 | none => 0) = counterGet
            (ks.map fun k => (k, f k)) w from rfl, ih]
        simp [List.mem_cons, Ne.symm hk]

/-- A `Counter` maps every word to its occurrence count in the input list
(0 for words never seen). -/
theorem counterGet_counterItems {α : Type} [DecidableEq α] (ws : List α)
    (w : α) : counterGet (counterItems ws) w = ws.count w := by
  rw [counterItems, counterGet_map]
  by_cases h : w ∈ uniqKeys ws
  · simp [h]
  · rw [if_neg h]
    rw [mem_uniqKeys] at h
    exact (List.count_eq_zero.mpr h).symm

theorem mem_mostCommon {α : Type} [DecidableEq α] {ws : List α} {n : Nat}
    {p : α × Nat} (h : p ∈ mostCommon ws n) : p.1 ∈ ws := by
  have h1 : p ∈ List.insertionSort byCountDesc (counterItems ws) :=
    List.take_subset _ _ h
  have h2 : p ∈ counterItems ws :=
    (List.perm_insertionSort byCountDesc (counterItems ws)).mem_iff.mp h1
  obtain ⟨k, hk, hkp⟩ := List.mem_map.mp h2
  rw [← hkp]
  exact (mem_uniqKeys ws k).mp hk

theorem length_mostCommon {α : Type} [DecidableEq α] (ws : List α) (n : Nat) :
    (mostCommon ws n).length ≤ n :=
  le_trans (List.length_take_le _ _) (le_refl n)

/-! ## Sentiment distribution engine (analyze_sentiment_distribution, lines 34-67) -/

/-- `pandas.Series.idxmax` over an association list: the key of the first
entry attaining the maximal value; `none` on an empty series (where pandas
raises `ValueError: attempt to get argmax of an empty sequence`). -/
def firstMax {α : Type} : List (α × Nat) → Option (α × Nat)
  | [] => none
  | p :: rest =>
      match firstMax rest with
      | none => some p
      | some q => some (if q.2 ≤ p.2 then p else q)

/-- The distinct sentiment codes of the collection in ascending order:
the index of `value_counts().sort_index()`. -/
def sentimentCodes (records : List Record) : List Int :=
  List.insertionSort (· ≤ ·) (uniqKeys (records.map (fun r => r.sentiment)))

/-- Number of records carrying sentiment code `c`. -/
def countSent (records : List Record) (c : Int) : Nat :=
  (records.map (fun r => r.sentiment)).count c

/-- `self.data['sentiment'].value_counts().sort_index()`: pairs
(code, count) with codes ascending. -/
def sentimentCounts (records : List Record) : List (Int × Nat) :=
  (sentimentCodes records).map (fun c => (c, countSent records c))

/-- `self.data['sentiment_label'].value_counts()` in first-occurrence key
order (count values are what matters downstream; `idxmax` picks a maximal
entry). -/
def labelCounts (records : List Record) : List (String × Nat) :=
  counterItems (records.map (fun r => r.sentiment_label))

/-- Round half to even (the IEEE/NumPy rounding used by `Series.round`). -/
def roundHalfEven (q : ℚ) : ℤ :=
  if q - ⌊q⌋ < 1/2 then ⌊q⌋
  else if 1/2 < q - ⌊q⌋ then ⌊q⌋ + 1
  else if ⌊q⌋ % 2 = 0 then ⌊q⌋ else ⌊q⌋ + 1

/-- `.round(2)`: round to 2 decimal places. -/
def round2 (q : ℚ) : ℚ := (roundHalfEven (q * 100) : ℚ) / 100

/-- Result record of `analyze_sentiment_distribution`. -/
structure DistributionResult where
  total_tweets : Nat
  sentiment_counts : List (Int × Nat)
  sentiment_label_counts : List (String × Nat)
  sentiment_percentages : List (Int × ℚ)
  dominant_sentiment : Int
  dominant_sentiment_label : String
  pro_climate : Nat
  anti_climate : Nat
  neutral : Nat
deriving DecidableEq, Repr

/-- The success value of `analyze_sentiment_distribution`, given the two
`idxmax` results `d` (dominant code) and `dl` (dominant label). -/
def distResult (records : List Record) (d : Int) (dl : String) :
    DistributionResult :=
  { total_tweets := records.length
    sentiment_counts := sentimentCounts records
    sentiment_label_counts := labelCounts records
    sentiment_percentages := (sentimentCounts records).map
      (fun p => (p.1, round2 ((p.2 : ℚ) / (records.length : ℚ) * 100)))
    dominant_sentiment := d
    dominant_sentiment_label := dl
    pro_climate := countSent records 1 + countSent records 2
    anti_climate := countSent records (-1)
    neutral := countSent records 0 }

/-- `analyze_sentiment_distribution`: counts, label counts, percentages
(count/total×100 rounded to 2 decimals), dominant code/label via `idxmax`,
and the pro/anti/neutral balance.  On an empty collection the `idxmax`
calls raise, re-raised by the method's `except` clause. -/
def analyze_sentiment_distribution (records : List Record) :
    Except String DistributionResult :=
  match firstMax (sentimentCounts records), firstMax (labelCounts records) with
  | some p, some q => .ok (distResult records p.1 q.1)
  | _, _ => .error "attempt to get argmax of an empty sequence"

/-! ### Lemmas about firstMax -/

theorem firstMax_eq_none {α : Type} (l : List (α × Nat)) :
    firstMax l = none ↔ l = [] := by
  cases l with
  | nil => simp [firstMax]
  | cons p rest =>
      simp only [firstMax]
      cases firstMax rest <;> simp

theorem firstMax_mem {α : Type} {l : List (α × Nat)} {m : α × Nat}
    (h : firstMax l = some m) : m ∈ l := by
  revert h
  induction l generalizing m with
  | nil => intro h; simp [firstMax] at h
  | cons p rest ih =>
      intro h
      rw [firstMax] at h
      cases hrest : firstMax rest with
      | none => rw [hrest] at h; simp at h; simp [h]
      | some q =>
          rw [hrest] at h
          simp only [Option.some.injEq] at h
          by_cases hq : q.2 ≤ p.2
          · rw [if_pos hq] at h; simp [h]
          · rw [if_neg hq] at h
            exact List.mem_cons_of_mem _ (h ▸ ih hrest)

theorem firstMax_is_max {α : Type} {l : List (α × Nat)} {m : α × Nat}
    (h : firstMax l = some m) : ∀ p ∈ l, p.2 ≤ m.2 := by
  revert h
  induction l generalizing m with
  | nil => intro h; simp [firstMax] at h
  | cons p rest ih =>
      intro h
      rw [firstMax] at h
      cases hrest : firstMax rest with
      | none =>
          rw [hrest] at h
          simp only [Option.some.injEq] at h
          have hnil : rest = [] := (firstMax_eq_none rest).mp hrest
          subst hnil
          simp [← h]
      | some q =>
          rw [hrest] at h
          simp only [Option.some.injEq] at h
          by_cases hq : q.2 ≤ p.2
          · rw [if_pos hq] at h
            subst h
            intro x hx
            rcases List.mem_cons.mp hx with hxp | hxr
            · subst hxp; exact le_refl _
            · exact le_trans (ih hrest x hxr) hq
          · rw [if_neg hq] at h
            subst h
            intro x hx
            rcases List.mem_cons.mp hx with hxp | hxr
            · subst hxp; exact le_of_not_le hq
            · exact ih hrest x hxr

/-- On a series whose keys are strictly increasing, `idxmax` resolves count
ties to the smallest key. -/
theorem firstMax_tie_lowest {l : List (Int × Nat)} {m : Int × Nat}
    (hsort : l.Pairwise (fun p q => p.1 < q.1)) (h : firstMax l = some m) :
    ∀ p ∈ l, p.2 = m.2 → m.1 ≤ p.1 := by
  revert h hsort
  induction l generalizing m with
  | nil => intro hsort h; simp [firstMax] at h
  | cons p rest ih =>
      intro hsort h
      rw [firstMax] at h
      cases hrest : firstMax rest with
      | none =>
          rw [hrest] at h
          simp only [Option.some.injEq] at h
          have hnil : rest = [] := (firstMax_eq_none rest).mp hrest
          subst hnil
          intro x hx _
          rcases List.mem_cons.mp hx with hxp | hxr
          · subst hxp; rw [← h]
          · simp at hxr
      | some q =>
          rw [hrest] at h
          simp only [Option.some.injEq] at h
          by_cases hq : q.2 ≤ p.2
          · rw [if_pos hq] at h
            subst h
            intro x hx _
            rcases List.mem_cons.mp hx with hxp | hxr
            · subst hxp; exact le_refl _
            · exact le_of_lt ((List.pairwise_cons.mp hsort).1 x hxr)
          · rw [if_neg hq] at h
            subst h
            intro x hx hx2
            rcases List.mem_cons.mp hx with hxp | hxr
            · subst hxp
              exact absurd (le_of_eq hx2.symm) hq
            · exact ih (List.pairwise_cons.mp hsort).2 hrest x hxr hx2

/-! ### Structure of sentimentCounts -/

theorem sentimentCodes_nodup (records : List Record) :
    (sentimentCodes records).Nodup :=
  ((List.perm_insertionSort (· ≤ ·) _).nodup_iff).mpr (nodup_uniqKeys _)

theorem sentimentCodes_sorted (records : List Record) :
    (sentimentCodes records).Pairwise (· < ·) := by
  have h1 : (sentimentCodes records).Pairwise (· ≤ ·) :=
    List.sorted_insertionSort (· ≤ ·) _
  have h2 : (sentimentCodes records).Pairwise (· ≠ ·) :=
    sentimentCodes_nodup records
  exact (h1.and h2).imp (fun h => lt_of_le_of_ne h.1 h.2)

theorem mem_sentimentCodes (records : List Record) (c : Int) :
    c ∈ sentimentCodes records ↔ c ∈ records.map (fun r => r.sentiment) := by
  rw [sentimentCodes, (List.perm_insertionSort (· ≤ ·) _).mem_iff,
    mem_uniqKeys]

theorem sentimentCounts_pairwise (records : List Record) :
    (sentimentCounts records).Pairwise (fun p q => p.1 < q.1) := by
  rw [sentimentCounts, List.pairwise_map]
  exact sentimentCodes_sorted records

theorem mem_sentimentCounts {records : List Record} {p : Int × Nat}
    (h : p ∈ sentimentCounts records) :
    p.1 ∈ sentimentCodes records ∧ p.2 = countSent records p.1 := by
  obtain ⟨c, hc, hcp⟩ := List.mem_map.mp h
  rw [← hcp]
  exact ⟨hc, rfl⟩

theorem sentimentCounts_ne_nil {records : List Record} (h : records ≠ []) :
    sentimentCounts records ≠ [] := by
  rw [sentimentCounts]
  intro hcon
  have h1 : sentimentCodes records = [] := by
    cases hcs : sentimentCodes records with
    | nil => rfl
    | cons a l => rw [hcs] at hcon; simp at hcon
  have h2 : uniqKeys (records.map (fun r => r.sentiment)) = [] := by
    have := (List.perm_insertionSort (· ≤ ·)
      (uniqKeys (records.map (fun r => r.sentiment)))).symm
    rw [sentimentCodes] at h1
    rw [h1] at this
    exact this.eq_nil
  refine uniqKeys_ne_nil _ ?_ h2
  cases records with
  | nil => exact absurd rfl h
  | cons r rs => simp

theorem labelCounts_ne_nil {records : List Record} (h : records ≠ []) :
    labelCounts records ≠ [] := by
  rw [labelCounts, counterItems]
  intro hcon
  have h2 : uniqKeys (records.map (fun r => r.sentiment_label)) = [] :=
    List.map_eq_nil_iff.mp hcon
  refine uniqKeys_ne_nil _ ?_ h2
  cases records with
  | nil => exact absurd rfl h
  | cons r rs => simp

/-- On a non-empty collection both `idxmax` calls succeed and the engine
returns its result record. -/
theorem analyze_ok_of_ne_nil {records : List Record} (h : records ≠ []) :
    ∃ p q, firstMax (sentimentCounts records) = some p ∧
      firstMax (labelCounts records) = some q ∧
      analyze_sentiment_distribution records = .ok (distResult records p.1 q.1) := by
  cases hp : firstMax (sentimentCounts records) with
  | none => exact absurd ((firstMax_eq_none _).mp hp) (sentimentCounts_ne_nil h)
  | some p =>
      cases hq : firstMax (labelCounts records) with
      | none => exact absurd ((firstMax_eq_none _).mp hq) (labelCounts_ne_nil h)
      | some q =>
          exact ⟨p, q, rfl, rfl, by rw [analyze_sentiment_distribution, hp, hq]⟩

/-! ## Theme extractor (identify_key_themes, lines 69-116) -/

/-- `self.climate_keywords` (source lines 23-29). -/
def climate_keywords : List String :=
  ["climate", "change", "global", "warming", "emission", "carbon",
   "temperature", "weather", "environment", "greenhouse", "pollution",
   "renewable", "energy", "solar", "wind", "fossil", "fuel",
   "sustainability", "eco", "green", "earth", "planet", "ocean",
   "ice", "melting", "sea", "level", "drought", "flood", "storm"]

/-- `needle` occurs at the head of `hay`. -/
def leadsWith : List Char → List Char → Bool
  | [], _ => true
  | _ :: _, [] => false
  | a :: as, b :: bs => a = b && leadsWith as bs

/-- Python's substring test `needle in hay`. -/
def containsSub (needle : List Char) : List Char → Bool
  | [] => needle.isEmpty
  | c :: rest => leadsWith needle (c :: rest) || containsSub needle rest

/-- `' '.join(column_of_messages)`. -/
def joinMessages (records : List Record) : String :=
  String.intercalate " " (records.map (fun r => r.message))

/-- Result record of `identify_key_themes`. -/
structure ThemeAnalysis where
  top_themes : List (String × Nat)
  total_unique_words : Nat
  theme_by_sentiment : List (Int × List (String × Nat))
  climate_related_words : List (String × Nat)
deriving DecidableEq, Repr

/-- The per-class loop of `identify_key_themes` (lines 94-101): for each
sentiment code in `[-1, 0, 1, 2]`, tokenize the concatenation of that
class's messages and keep the 10 most common tokens. -/
def theme_by_sentiment_of (records : List Record) :
    List (Int × List (String × Nat)) :=
  [-1, 0, 1, 2].map (fun s =>
    (s, mostCommon
      (tokenize (joinMessages (records.filter (fun r => r.sentiment = s))))
      10))

/-- `identify_key_themes`: global top-N themes, unique-word count, per-class
top-10 tables, and the climate-related subset of the global counter (tokens
having some climate keyword as a substring). -/
def identify_key_themes (records : List Record) (top_n : Nat := 20) :
    ThemeAnalysis :=
  let all_words := tokenize (joinMessages records)
  { top_themes := mostCommon all_words top_n
    total_unique_words := (uniqKeys all_words).length
    theme_by_sentiment := theme_by_sentiment_of records
    climate_related_words := (counterItems all_words).filter
      (fun p => climate_keywords.any (fun k => containsSub k.data p.1.data)) }

/-! ## Text pattern statistics engine (analyze_text_patterns, lines 118-171) -/

/-- `Series.mean()`: arithmetic mean, `NaN` (`none`) on an empty series. -/
def seriesMean (xs : List ℚ) : Option ℚ :=
  if xs.isEmpty then none else some (xs.sum / xs.length)

/-- Middle of an (already sorted) list as NumPy/pandas `median` takes it:
the average of the two middle elements (which coincide when the length is
odd). -/
def midOf (l : List ℚ) : ℚ :=
  (((l.get? ((l.length - 1) / 2)).getD 0) + ((l.get? (l.length / 2)).getD 0)) / 2

/-- `Series.median()`. -/
def seriesMedian (xs : List ℚ) : Option ℚ :=
  if xs.isEmpty then none
  else some (midOf (List.insertionSort (· ≤ ·) xs))

/-- `Series.min()`. -/
def seriesMin (xs : List ℚ) : Option ℚ := xs.min?

/-- `Series.max()`. -/
def seriesMax (xs : List ℚ) : Option ℚ := xs.max?

/-- The square of `Series.std()` (pandas default `ddof=1`, Bessel-corrected
sample variance, documented as normalized by `N - 1`): `NaN` (`none`) when
the series has fewer than two elements.  The standard deviation itself is
the square root of this value; since squaring is injective on nonnegative
reals, all equality/inequality claims about `std` are settled on squares. -/
def seriesStdSq (xs : List ℚ) : Option ℚ :=
  if xs.length ≤ 1 then none
  else some ((((xs.map (fun x => x ^ 2)).sum) - (xs.sum) ^ 2 / (xs.length : ℚ)) /
    ((xs.length : ℚ) - 1))

/-- The five statistics computed for one numeric field. -/
structure FieldStats where
  mean : Option ℚ
  median : Option ℚ
  min : Option ℚ
  max : Option ℚ
  std_sq : Option ℚ
deriving DecidableEq, Repr

def fieldStats (xs : List ℚ) : FieldStats :=
  { mean := seriesMean xs
    median := seriesMedian xs
    min := seriesMin xs
    max := seriesMax xs
    std_sq := seriesStdSq xs }

/-- The `text_length` column as exact rationals. -/
def lengthsOf (records : List Record) : List ℚ :=
  records.map (fun r => (r.text_length : ℚ))

/-- The `word_count` column as exact rationals. -/
def wordCountsOf (records : List Record) : List ℚ :=
  records.map (fun r => (r.word_count : ℚ))

structure SentimentPattern where
  avg_length : Option ℚ
  avg_words : Option ℚ
  count : Nat
deriving DecidableEq, Repr

/-- `Series.str.contains(pat, case=False)` for the literal patterns used by
the source (none of which contain regex metacharacters): case-insensitive
substring test. -/
def containsCI (message pat : String) : Bool :=
  containsSub (pat.data.map Char.toLower) (message.data.map Char.toLower)

structure PatternAnalysis where
  text_length_stats : FieldStats
  word_count_stats : FieldStats
  patterns_by_sentiment : List (Int × SentimentPattern)
  retweets : Nat
  mentions : Nat
  hashtags : Nat
  urls : Nat
deriving DecidableEq, Repr

/-- `analyze_text_patterns`: global and per-class length/word statistics and
the four structural-marker record counts. -/
def analyze_text_patterns (records : List Record) : PatternAnalysis :=
  { text_length_stats := fieldStats (lengthsOf records)
    word_count_stats := fieldStats (wordCountsOf records)
    patterns_by_sentiment := [-1, 0, 1, 2].map (fun s =>
      let sd := records.filter (fun r => r.sentiment = s)
      (s, { avg_length := seriesMean (lengthsOf sd)
            avg_words := seriesMean (wordCountsOf sd)
            count := sd.length }))
    retweets := (records.filter (fun r => containsCI r.message "RT @")).length
    mentions := (records.filter (fun r => containsCI r.message "@")).length
    hashtags := (records.filter (fun r => containsCI r.message "#")).length
    urls := (records.filter (fun r => containsCI r.message "http")).length }

/-! ## Advanced polarity sampler (perform_advanced_sentiment_analysis,
lines 173-219) -/

/-- A linear congruential step, driving the modelled sampler. -/
def lcg (s : Nat) : Nat := (1103515245 * s + 12345) % 2147483648

/-- Modelled from the spec: `pandas.DataFrame.sample(n, random_state)` is an
external library routine, not part of this repository; the spec requires
only that it draw `n` distinct rows deterministically from the seed ("a
fixed deterministic seed (so repeated calls on identical input produce an
identical sample)").  Modelled as seeded selection without replacement. -/
def pandasSample {α : Type} : Nat → Nat → List α → List α
  | 0, _, _ => []
  | n + 1, s, l =>
      if h : 0 < l.length then
        l.get ⟨s % l.length, Nat.mod_lt _ h⟩ ::
          pandasSample n (lcg s) (l.eraseIdx (s % l.length))
      else []

/-- `self.data.sample(n=min(5000, len(self.data)), random_state=42)`. -/
def sampleOf (records : List Record) : List Record :=
  pandasSample (min 5000 records.length) 42 records

/-- Polarity contribution of one sampled message: the external scorer's
polarity, or 0 when scoring raises (`except:` branch, line 192). -/
def polContrib (score : String → Option (ℚ × ℚ)) (r : Record) : ℚ :=
  match score r.message with
  | some p => p.1
  | none => 0

/-- Subjectivity contribution of one sampled message (0 on failure). -/
def subjContrib (score : String → Option (ℚ × ℚ)) (r : Record) : ℚ :=
  match score r.message with
  | some p => p.2
  | none => 0

/-- `np.mean` (exposed only on non-empty data in the source). -/
def npMean (xs : List ℚ) : ℚ := xs.sum / xs.length

/-- The square of `np.std` (population, `ddof=0`). -/
def npStdSq (xs : List ℚ) : ℚ :=
  (xs.map (fun x => (x - npMean xs) ^ 2)).sum / xs.length

/-- `np.median`. -/
def npMedian (xs : List ℚ) : ℚ := midOf (List.insertionSort (· ≤ ·) xs)

structure ScoreStats where
  mean : ℚ
  median : ℚ
  std_sq : ℚ
  min : ℚ
  max : ℚ
deriving DecidableEq, Repr

structure AdvancedResult where
  textblob_polarity : ScoreStats
  textblob_subjectivity : ScoreStats
  sample_size : Nat
deriving DecidableEq, Repr

/-- `perform_advanced_sentiment_analysis`, abstracting TextBlob as a
black-box scorer `score : message → Option (polarity, subjectivity)`
(`none` = the per-message `except` branch fires).  `np.min` on a zero-size
array raises, which the method's `except` clause re-raises. -/
def perform_advanced_sentiment_analysis (records : List Record)
    (score : String → Option (ℚ × ℚ)) : Except String AdvancedResult :=
  let sample := sampleOf records
  let pols := sample.map (polContrib score)
  let subs := sample.map (subjContrib score)
  match pols.min?, pols.max?, subs.min?, subs.max? with
  | some pmin, some pmax, some smin, some smax =>
      .ok { textblob_polarity :=
              { mean := npMean pols, median := npMedian pols
                std_sq := npStdSq pols, min := pmin, max := pmax }
            textblob_subjectivity :=
              { mean := npMean subs, median := npMedian subs
                std_sq := npStdSq subs, min := smin, max := smax }
            sample_size := min 5000 records.length }
  | _, _, _, _ =>
      .error "zero-size array to reduction operation minimum which has no identity"

/-! ## Recommendation engine (_generate_recommendations, lines 261-288) -/

def rec1Msg : String :=
  "High anti-climate change sentiment detected. Consider targeted educational campaigns."

def rec2Msg : String :=
  "High neutral sentiment suggests need for more engaging climate change content."

def rec3Msg : String :=
  "Pro-climate change sentiment is dominant. Leverage this for broader engagement."

def rec4Msg : String :=
  "Limited climate-specific terminology. Consider expanding climate change vocabulary."

def rec5Msg (names : List String) : String :=
  "Focus on key themes: " ++ String.intercalate ", " (names.take 5)

/-- `_generate_recommendations`: the five rules in source order, each
appending its message when its guard holds; rule 5 is unconditional. -/
def generate_recommendations (pro anti neutral : Nat)
    (top_themes : List (String × Nat)) (climate_words : List String) :
    List String :=
  let recs0 : List String := []
  let recs1 := if pro < anti then recs0 ++ [rec1Msg] else recs0
  let recs2 := if pro + anti < neutral then recs1 ++ [rec2Msg] else recs1
  let recs3 := if anti < pro then recs2 ++ [rec3Msg] else recs2
  let themeNames := (top_themes.take 10).map Prod.fst
  let recs4 := if climate_words.length < 10 then recs3 ++ [rec4Msg] else recs3
  recs4 ++ [rec5Msg themeNames]

/-! ## Insight report assembler (generate_insights_report, lines 221-259) -/

/-- `round(x, 1)`. -/
def round1 (q : ℚ) : ℚ := (roundHalfEven (q * 10) : ℚ) / 10

structure InsightReport where
  total_tweets : Nat
  date_range : String
  topic : String
  dominant_sentiment : String
  sentiment_balance : Nat × Nat × Nat
  most_common_themes : List (String × Nat)
  average_tweet_length : Option ℚ
  sentiment_distribution : DistributionResult
  theme_analysis : ThemeAnalysis
  text_patterns : PatternAnalysis
  advanced_sentiment : AdvancedResult
  recommendations : List String
deriving Repr

/-- `generate_insights_report`: runs the four analyses (any raised error
propagates and no report is produced), then assembles the nested report and
the recommendation list. -/
def generate_insights_report (records : List Record)
    (score : String → Option (ℚ × ℚ)) : Except String InsightReport := do
  let sd ← analyze_sentiment_distribution records
  let kt := identify_key_themes records
  let tp := analyze_text_patterns records
  let aa ← perform_advanced_sentiment_analysis records score
  return { total_tweets := sd.total_tweets
           date_range := "Apr 27, 2015 - Feb 21, 2018"
           topic := "Climate Change"
           dominant_sentiment := sd.dominant_sentiment_label
           sentiment_balance := (sd.pro_climate, sd.anti_climate, sd.neutral)
           most_common_themes := kt.top_themes.take 5
           average_tweet_length := tp.text_length_stats.mean.map round1
           sentiment_distribution := sd
           theme_analysis := kt
           text_patterns := tp
           advanced_sentiment := aa
           recommendations := generate_recommendations sd.pro_climate
             sd.anti_climate sd.neutral kt.top_themes
             (kt.climate_related_words.map Prod.fst) }

/-! ## Sampler lemmas -/

theorem pandasSample_length {α : Type} :
    ∀ (n s : Nat) (l : List α), (pandasSample n s l).length = min n l.length := by
  intro n
  induction n with
  | zero => intro s l; simp [pandasSample]
  | succ n ih =>
      intro s l
      rw [pandasSample]
      by_cases h : 0 < l.length
      · rw [dif_pos h, List.length_cons, ih]
        have he : (l.eraseIdx (s % l.length)).length = l.length - 1 := by
          rw [List.length_eraseIdx, if_pos (Nat.mod_lt _ h)]
        rw [he]
        omega
      · rw [dif_neg h]
        simp only [List.length_nil]
        omega

theorem pandasSample_subset {α : Type} :
    ∀ (n s : Nat) (l : List α), ∀ x ∈ pandasSample n s l, x ∈ l := by
  intro n
  induction n with
  | zero => intro s l x hx; simp [pandasSample] at hx
  | succ n ih =>
      intro s l x hx
      rw [pandasSample] at hx
      by_cases h : 0 < l.length
      · rw [dif_pos h] at hx
        rcases List.mem_cons.mp hx with hg | ht
        · rw [hg]; exact List.get_mem l _ _
        · exact (List.eraseIdx_sublist l (s % l.length)).subset (ih _ _ x ht)
      · rw [dif_neg h] at hx
        simp at hx

theorem sampleOf_length (records : List Record) :
    (sampleOf records).length = min 5000 records.length := by
  rw [sampleOf, pandasSample_length]
  omega

/-- C5: two invocations of the Advanced Polarity Sampler on the same record
collection (and the same fixed seed, baked into `sampleOf`) select the
identical sample of `min(5000, |records|)` records drawn from the
collection, and return identical aggregate statistics. -/
theorem advanced_sampler_deterministic (records : List Record)
    (score : String → Option (ℚ × ℚ)) :
    (sampleOf records = sampleOf records ∧
      perform_advanced_sentiment_analysis records score =
        perform_advanced_sentiment_analysis records score) ∧
    (sampleOf records).length = min 5000 records.length ∧
    ∀ r ∈ sampleOf records, r ∈ records :=
  ⟨⟨rfl, rfl⟩, sampleOf_length records,
    fun r hr => pandasSample_subset _ _ _ r hr⟩

theorem sampleOf_ne_nil {records : List Record} (h : records ≠ []) :
    sampleOf records ≠ [] := by
  intro hcon
  have h1 := sampleOf_length records
  rw [hcon] at h1
  simp only [List.length_nil] at h1
  have h2 : 0 < records.length := List.length_pos.mpr h
  omega

/-- C6: a per-message scoring failure is degraded to a `(0, 0)` contribution
and never fails the batch: on any non-empty collection the sampler returns
aggregate statistics computed over all `min(5000, |records|)` contributions,
failed messages contributing zeros. -/
theorem scoring_failure_degrades (records : List Record)
    (score : String → Option (ℚ × ℚ)) (h : records ≠ []) :
    (∃ res, perform_advanced_sentiment_analysis records score = .ok res ∧
        res.sample_size = min 5000 records.length ∧
        res.textblob_polarity.mean =
          npMean ((sampleOf records).map (polContrib score)) ∧
        res.textblob_subjectivity.mean =
          npMean ((sampleOf records).map (subjContrib score))) ∧
    ((sampleOf records).map (polContrib score)).length =
      min 5000 records.length ∧
    (∀ r ∈ sampleOf records, score r.message = none →
        polContrib score r = 0 ∧ subjContrib score r = 0) := by
  refine ⟨?_, by rw [List.length_map]; exact sampleOf_length records, ?_⟩
  · rcases hs : sampleOf records with _ | ⟨x, xs⟩
    · exact absurd hs (sampleOf_ne_nil h)
    · rw [perform_advanced_sentiment_analysis, hs]
      simp only [List.map_cons, List.min?_cons, List.max?_cons]
      exact ⟨_, rfl, rfl, rfl, rfl⟩
  · intro r _ hnone
    constructor
    · rw [polContrib, hnone]
    · rw [subjContrib, hnone]

def exRec : Record :=
  { message := "solar wind solar", sentiment := 1, sentiment_label := "Pro"
    text_length := 16, word_count := 3 }

theorem scoring_failure_degrades_witness :
    ∃ res, perform_advanced_sentiment_analysis [exRec] (fun _ => none) =
      .ok res ∧ res.sample_size = min 5000 ([exRec] : List Record).length :=
  ((scoring_failure_degrades [exRec] (fun _ => none)
    (by simp)).1).imp (fun res hr => ⟨hr.1, hr.2.1⟩)

/-! ## Theme table claims -/

/-- C10: `theme_by_sentiment` always has exactly the keys `[-1, 0, 1, 2]`,
each table holds at most 10 entries, and a class with no records maps to an
empty table (rather than being absent or raising). -/
theorem theme_tables_shape (records : List Record) :
    ((theme_by_sentiment_of records).map Prod.fst = [-1, 0, 1, 2]) ∧
    (∀ c table, (c, table) ∈ theme_by_sentiment_of records →
      table.length ≤ 10 ∧
      (records.filter (fun r => r.sentiment = c) = [] → table = [])) := by
  constructor
  · rw [theme_by_sentiment_of, List.map_map]
    rfl
  · intro c table hmem
    rw [theme_by_sentiment_of] at hmem
    obtain ⟨s, _, hsp⟩ := List.mem_map.mp hmem
    have hc : c = s := (congrArg Prod.fst hsp).symm
    have ht : table = mostCommon
        (tokenize (joinMessages (records.filter (fun r => r.sentiment = s))))
        10 := (congrArg Prod.snd hsp).symm
    subst hc
    constructor
    · rw [ht]; exact length_mostCommon _ _
    · intro hempty
      rw [ht, hempty]
      rfl

theorem theme_tables_shape_witness :
    ((theme_by_sentiment_of [exRec]).map Prod.fst = [-1, 0, 1, 2]) ∧
    (([] : List (String × Nat)).length ≤ 10 ∧
      (([exRec] : List Record).filter (fun r => r.sentiment = 2) = [] →
        ([] : List (String × Nat)) = [])) :=
  ⟨(theme_tables_shape [exRec]).1,
    (theme_tables_shape [exRec]).2 2 [] (by decide)⟩

/-- C9: every token in the per-class theme table of class `c` occurs, after
tokenization, in the concatenated messages of the records whose sentiment
equals `c` (hence no token originating only from another class can
appear). -/
theorem theme_tables_partition (records : List Record) (c : Int)
    (table : List (String × Nat))
    (h : (c, table) ∈ theme_by_sentiment_of records) :
    ∀ w k, (w, k) ∈ table →
      w ∈ tokenize (joinMessages (records.filter (fun r => r.sentiment = c))) := by
  rw [theme_by_sentiment_of] at h
  obtain ⟨s, _, hsp⟩ := List.mem_map.mp h
  have hc : c = s := (congrArg Prod.fst hsp).symm
  have ht : table = mostCommon
      (tokenize (joinMessages (records.filter (fun r => r.sentiment = s))))
      10 := (congrArg Prod.snd hsp).symm
  subst hc
  intro w k hwk
  rw [ht] at hwk
  exact mem_mostCommon hwk

theorem theme_tables_partition_witness :
    "solar" ∈ tokenize (joinMessages
      (([exRec] : List Record).filter (fun r => r.sentiment = 1))) :=
  theme_tables_partition [exRec] 1 [("solar", 2), ("wind", 1)] (by decide)
    "solar" 2 (by decide)

/-! ## Empty-input and dominant-sentiment claims -/

/-- C1: the Distribution Engine succeeds exactly on non-empty collections;
on the empty collection it raises (pandas `idxmax` on an empty series) and
the Insight Report Assembler propagates the error, producing no report. -/
theorem empty_input_raises (records : List Record)
    (score : String → Option (ℚ × ℚ)) :
    ((∃ res, analyze_sentiment_distribution records = .ok res) ↔
      records ≠ []) ∧
    (records = [] →
      generate_insights_report records score =
        .error "attempt to get argmax of an empty sequence") := by
  constructor
  · constructor
    · rintro ⟨res, hres⟩ rfl
      rw [show analyze_sentiment_distribution [] =
        .error "attempt to get argmax of an empty sequence" from rfl] at hres
      exact Except.noConfusion hres
    · intro h
      obtain ⟨p, q, _, _, hok⟩ := analyze_ok_of_ne_nil h
      exact ⟨_, hok⟩
  · rintro rfl
    rfl

theorem empty_input_raises_witness :
    generate_insights_report [] (fun _ => none) =
      .error "attempt to get argmax of an empty sequence" ∧
    (∃ res, analyze_sentiment_distribution [exRec] = .ok res) :=
  ⟨(empty_input_raises [] (fun _ => none)).2 rfl,
    (empty_input_raises [exRec] (fun _ => none)).1.mpr (by simp)⟩

/-- C2: the dominant sentiment returned by the Distribution Engine is a
present code of maximal count, and on ties it is the lowest code among the
tied maxima. -/
theorem dominant_sentiment_spec (records : List Record)
    (res : DistributionResult)
    (h : analyze_sentiment_distribution records = .ok res) :
    res.dominant_sentiment ∈ sentimentCodes records ∧
    (∀ c ∈ sentimentCodes records,
      countSent records c ≤ countSent records res.dominant_sentiment) ∧
    (∀ c ∈ sentimentCodes records,
      countSent records c = countSent records res.dominant_sentiment →
      res.dominant_sentiment ≤ c) := by
  rw [analyze_sentiment_distribution] at h
  cases hp : firstMax (sentimentCounts records) with
  | none => rw [hp] at h; exact Except.noConfusion h
  | some p =>
      cases hq : firstMax (labelCounts records) with
      | none => rw [hp, hq] at h; exact Except.noConfusion h
      | some q =>
          rw [hp, hq] at h
          have hres : res = distResult records p.1 q.1 :=
            (Except.ok.injEq _ _ ▸ h).symm
          have hdom : res.dominant_sentiment = p.1 := by rw [hres]; rfl
          have hpmem := mem_sentimentCounts (firstMax_mem hp)
          rw [hdom]
          refine ⟨hpmem.1, ?_, ?_⟩
          · intro c hc
            have hcc : (c, countSent records c) ∈ sentimentCounts records :=
              List.mem_map.mpr ⟨c, hc, rfl⟩
            have := firstMax_is_max hp _ hcc
            simpa [← hpmem.2] using this
          · intro c hc hcount
            have hcc : (c, countSent records c) ∈ sentimentCounts records :=
              List.mem_map.mpr ⟨c, hc, rfl⟩
            refine firstMax_tie_lowest (sentimentCounts_pairwise records) hp
              _ hcc ?_
            simpa [← hpmem.2] using hcount

def exC2 : List Record :=
  [{ message := "a", sentiment := 2, sentiment_label := "News"
     text_length := 1, word_count := 1 },
   { message := "b", sentiment := -1, sentiment_label := "Anti"
     text_length := 1, word_count := 1 }]

theorem dominant_sentiment_spec_witness :
    (distResult exC2 (-1) "News").dominant_sentiment ∈ sentimentCodes exC2 ∧
    (∀ c ∈ sentimentCodes exC2, countSent exC2 c ≤
      countSent exC2 (distResult exC2 (-1) "News").dominant_sentiment) ∧
    (∀ c ∈ sentimentCodes exC2, countSent exC2 c =
      countSent exC2 (distResult exC2 (-1) "News").dominant_sentiment →
      (distResult exC2 (-1) "News").dominant_sentiment ≤ c) :=
  dominant_sentiment_spec exC2 (distResult exC2 (-1) "News") rfl

/-! ## Tokenizer claim (C3) -/

/-- The tokenizer as the claim words it: replace every character that is
not a letter, digit, or whitespace with a single space.  (A refinement
definition written from the claim's text, to be compared against
`cleanChar`, which follows the source's `[^\w\s]`.) -/
def claimCleanChar (c : Char) : Char :=
  if c.isAlpha || c.isDigit || c.isWhitespace then c else ' '

/-- The claim's full tokenization pipeline: lowercase, replace
non-(letter/digit/whitespace) by a space, split on whitespace, drop tokens
of length ≤ 2 or in the stopword set. -/
def claimTokenize (text : String) : List String :=
  let words := (splitWs ((text.data.map Char.toLower).map claimCleanChar)).map
    (fun cs => String.mk cs)
  words.filter (fun w => decide (2 < w.length) && !(stop_words.contains w))

/-- The amended claim's character cleaning: underscore is kept alongside
letters and digits (matching `\w`). -/
def amendedCleanChar (c : Char) : Char :=
  if c.isAlpha || c.isDigit || c = '_' || c.isWhitespace then c else ' '

/-- The amended claim's tokenization pipeline. -/
def amendedTokenize (text : String) : List String :=
  let words := (splitWs ((text.data.map Char.toLower).map amendedCleanChar)).map
    (fun cs => String.mk cs)
  words.filter (fun w => decide (2 < w.length) && !(stop_words.contains w))

/-- C3 counterexample: on the input `"co_op"` the source tokenizer keeps the
underscore (Python `\w` matches it), while the claim's pipeline — which
spaces out every character that is not a letter, digit, or whitespace —
splits the text into two length-2 fragments and drops them; the frequency
tables disagree at the token `"co_op"`. -/
theorem tokenizer_claim_counterexample :
    tokenize "co_op" ≠ claimTokenize "co_op" ∧
    counterGet (counterItems (tokenize "co_op")) "co_op" ≠
      counterGet (counterItems (claimTokenize "co_op")) "co_op" := by
  decide

/-- C3 amended: the tokenizer produces exactly the tokens of the pipeline
"lowercase; replace every character that is not a letter, digit,
underscore, or whitespace with a single space; split on whitespace; drop
tokens of length ≤ 2 or stopwords", and the frequency table maps every
token to its occurrence count among the surviving tokens. -/
theorem tokenizer_frequency_amended (text : String) :
    tokenize text = amendedTokenize text ∧
    ∀ w, counterGet (counterItems (tokenize text)) w =
      (tokenize text).count w := by
  constructor
  · have hfun : cleanChar = amendedCleanChar := by
      funext c
      simp [cleanChar, amendedCleanChar, Char.isAlphanum, Bool.or_assoc]
    rw [tokenize, amendedTokenize, hfun]
  · intro w
    exact counterGet_counterItems _ w

/-! ## Recommendation engine claim (C4) -/

theorem rec5Msg_take_one (names : List String) :
    (rec5Msg names).data.take 1 = ['F'] := rfl

theorem rec1_ne_rec5 (names : List String) : rec1Msg ≠ rec5Msg names := by
  intro h
  have h1 : rec1Msg.data.take 1 = (rec5Msg names).data.take 1 := by rw [h]
  rw [rec5Msg_take_one] at h1
  exact absurd h1 (by decide)

theorem rec2_ne_rec5 (names : List String) : rec2Msg ≠ rec5Msg names := by
  intro h
  have h1 : rec2Msg.data.take 1 = (rec5Msg names).data.take 1 := by rw [h]
  rw [rec5Msg_take_one] at h1
  exact absurd h1 (by decide)

theorem rec3_ne_rec5 (names : List String) : rec3Msg ≠ rec5Msg names := by
  intro h
  have h1 : rec3Msg.data.take 1 = (rec5Msg names).data.take 1 := by rw [h]
  rw [rec5Msg_take_one] at h1
  exact absurd h1 (by decide)

theorem rec4_ne_rec5 (names : List String) : rec4Msg ≠ rec5Msg names := by
  intro h
  have h1 : rec4Msg.data.take 1 = (rec5Msg names).data.take 1 := by rw [h]
  rw [rec5Msg_take_one] at h1
  exact absurd h1 (by decide)

/-- C4: the five recommendation rules are evaluated in their fixed order;
each message appears in the output exactly when its guard holds (rule 1 iff
`anti_climate > pro_climate`, rule 4 iff fewer than 10 distinct
climate-related tokens, rules 2 and 3 for their respective guards), and the
rule-5 themes-focus message — naming the top 5 global themes — is always
present, as the last element. -/
theorem recommendation_rules (pro anti neutral : Nat)
    (top_themes : List (String × Nat)) (climate_words : List String) :
    (rec1Msg ∈ generate_recommendations pro anti neutral top_themes
        climate_words ↔ anti > pro) ∧
    (rec2Msg ∈ generate_recommendations pro anti neutral top_themes
        climate_words ↔ neutral > pro + anti) ∧
    (rec3Msg ∈ generate_recommendations pro anti neutral top_themes
        climate_words ↔ pro > anti) ∧
    (rec4Msg ∈ generate_recommendations pro anti neutral top_themes
        climate_words ↔ climate_words.length < 10) ∧
    (generate_recommendations pro anti neutral top_themes
        climate_words).getLast? =
      some (rec5Msg ((top_themes.take 10).map Prod.fst)) := by
  unfold generate_recommendations
  split_ifs with g1 g2 g3 g4 <;>
    simp_all [List.mem_append, List.mem_cons, gt_iff_lt,
      rec1_ne_rec5, rec2_ne_rec5, rec3_ne_rec5, rec4_ne_rec5,
      show rec1Msg ≠ rec2Msg by decide, show rec1Msg ≠ rec3Msg by decide,
      show rec1Msg ≠ rec4Msg by decide, show rec2Msg ≠ rec1Msg by decide,
      show rec2Msg ≠ rec3Msg by decide, show rec2Msg ≠ rec4Msg by decide,
      show rec3Msg ≠ rec1Msg by decide, show rec3Msg ≠ rec2Msg by decide,
      show rec3Msg ≠ rec4Msg by decide, show rec4Msg ≠ rec1Msg by decide,
      show rec4Msg ≠ rec2Msg by decide, show rec4Msg ≠ rec3Msg by decide]

/-! ## Text pattern statistics claim (C7) -/

/-- The spec's "population standard deviation", squared: mean squared
deviation from the mean (`none` on an empty collection).  Written from the
spec's words, to be compared with the source's `Series.std()`. -/
def popVarSpec (xs : List ℚ) : Option ℚ :=
  if xs.isEmpty then none
  else some ((xs.map (fun x => (x - xs.sum / (xs.length : ℚ)) ^ 2)).sum /
    (xs.length : ℚ))

/-- Sample (Bessel-corrected, `ddof = 1`) variance, written as the amended
claim words it: sum of squared deviations from the mean divided by `n - 1`
(`NaN`/`none` for fewer than two data points). -/
def sampleVarSpec (xs : List ℚ) : Option ℚ :=
  if xs.length ≤ 1 then none
  else some ((xs.map (fun x => (x - xs.sum / (xs.length : ℚ)) ^ 2)).sum /
    ((xs.length : ℚ) - 1))

theorem sum_sq_dev (xs : List ℚ) (m : ℚ) :
    (xs.map (fun x => (x - m) ^ 2)).sum =
      (xs.map (fun x => x ^ 2)).sum - 2 * m * xs.sum +
        (xs.length : ℚ) * m ^ 2 := by
  induction xs with
  | nil => simp
  | cons a l ih =>
      simp only [List.map_cons, List.sum_cons, ih, List.length_cons]
      push_cast
      ring

/-- pandas' one-pass `std` formula agrees with the textbook sum of squared
deviations normalized by `n - 1`. -/
theorem seriesStdSq_eq_sampleVar (xs : List ℚ) :
    seriesStdSq xs = sampleVarSpec xs := by
  rw [seriesStdSq, sampleVarSpec]
  by_cases h : xs.length ≤ 1
  · rw [if_pos h, if_pos h]
  · rw [if_neg h, if_neg h]
    congr 1
    have hn : (xs.length : ℚ) ≠ 0 := by
      have h0 : 0 < xs.length := by omega
      exact_mod_cast Nat.pos_iff_ne_zero.mp h0
    have hn1 : (xs.length : ℚ) - 1 ≠ 0 := by
      have h2 : 2 ≤ xs.length := by omega
      have h2q : (2 : ℚ) ≤ (xs.length : ℚ) := by exact_mod_cast h2
      intro hc
      have : (xs.length : ℚ) = 1 := by linarith
      linarith
    rw [sum_sq_dev]
    field_simp
    ring

/-- The mean/median/min/max of a `FieldStats` record are the standard
statistics of the underlying data. -/
def StandardStats (xs : List ℚ) (st : FieldStats) : Prop :=
  st.mean = some (xs.sum / (xs.length : ℚ)) ∧
  (∃ m, st.min = some m ∧ m ∈ xs ∧ ∀ x ∈ xs, m ≤ x) ∧
  (∃ m, st.max = some m ∧ m ∈ xs ∧ ∀ x ∈ xs, x ≤ m) ∧
  (∃ l, l.Perm xs ∧ l.Sorted (· ≤ ·) ∧ st.median = some (midOf l))

theorem fieldStats_standard {xs : List ℚ} (h : xs ≠ []) :
    StandardStats xs (fieldStats xs) := by
  have hne : ¬ (xs.isEmpty = true) := by simp [h]
  refine ⟨?_, ?_, ?_, ?_⟩
  · show seriesMean xs = _
    rw [seriesMean, if_neg hne]
  · cases hm : xs.min? with
    | none => exact absurd (List.min?_eq_none_iff.mp hm) h
    | some m =>
        refine ⟨m, ?_, List.min?_mem (fun a b => min_choice a b) hm, ?_⟩
        · show seriesMin xs = some m
          rw [seriesMin, hm]
        · exact fun x hx =>
            (List.le_min?_iff (fun a b c => le_min_iff) hm).mp (le_refl m) x hx
  · cases hm : xs.max? with
    | none => exact absurd (List.max?_eq_none_iff.mp hm) h
    | some m =>
        refine ⟨m, ?_, List.max?_mem (fun a b => max_choice a b) hm, ?_⟩
        · show seriesMax xs = some m
          rw [seriesMax, hm]
        · exact fun x hx =>
            (List.max?_le_iff (fun a b c => max_le_iff) hm).mp (le_refl m) x hx
  · refine ⟨List.insertionSort (· ≤ ·) xs, List.perm_insertionSort _ _,
      List.sorted_insertionSort _ _, ?_⟩
    show seriesMedian xs = _
    rw [seriesMedian, if_neg hne]

def exTP : List Record :=
  [{ message := "", sentiment := 0, sentiment_label := "Neutral"
     text_length := 0, word_count := 0 },
   { message := "ab", sentiment := 0, sentiment_label := "Neutral"
     text_length := 2, word_count := 1 }]

/-- C7 counterexample: for `text_length` data `[0, 2]` the source's
`Series.std()` squared is 2 (sample variance, `ddof = 1`), while the
population standard deviation squared is 1 — the claim that `std_length` is
the population standard deviation fails. -/
theorem std_population_counterexample :
    (analyze_text_patterns exTP).text_length_stats.std_sq ≠
      popVarSpec (lengthsOf exTP) := by
  have h1 : lengthsOf exTP = [0, 2] := by norm_num [lengthsOf, exTP]
  rw [show (analyze_text_patterns exTP).text_length_stats.std_sq =
    seriesStdSq (lengthsOf exTP) from rfl, h1]
  norm_num [seriesStdSq, popVarSpec]

/-- C7 amended: `std_length` and `std_words` are the SAMPLE standard
deviation (pandas `ddof = 1`; `NaN` for a single record), and
mean/median/min/max are the corresponding standard statistics over
`text_length` and `word_count`. -/
theorem text_pattern_stats_amended (records : List Record)
    (h : records ≠ []) :
    (analyze_text_patterns records).text_length_stats.std_sq =
      sampleVarSpec (lengthsOf records) ∧
    (analyze_text_patterns records).word_count_stats.std_sq =
      sampleVarSpec (wordCountsOf records) ∧
    StandardStats (lengthsOf records)
      (analyze_text_patterns records).text_length_stats ∧
    StandardStats (wordCountsOf records)
      (analyze_text_patterns records).word_count_stats := by
  have h1 : lengthsOf records ≠ [] := by
    rw [lengthsOf]
    simpa using h
  have h2 : wordCountsOf records ≠ [] := by
    rw [wordCountsOf]
    simpa using h
  exact ⟨seriesStdSq_eq_sampleVar _, seriesStdSq_eq_sampleVar _,
    fieldStats_standard h1, fieldStats_standard h2⟩

theorem text_pattern_stats_amended_witness :
    (analyze_text_patterns exTP).text_length_stats.std_sq =
      sampleVarSpec (lengthsOf exTP) ∧
    StandardStats (lengthsOf exTP)
      (analyze_text_patterns exTP).text_length_stats :=
  ⟨(text_pattern_stats_amended exTP (by decide)).1,
   (text_pattern_stats_amended exTP (by decide)).2.2.1⟩

/-! ## Percentage claim (C8) -/

theorem abs_roundHalfEven_sub_le (q : ℚ) :
    |(roundHalfEven q : ℚ) - q| ≤ 1 / 2 := by
  unfold roundHalfEven
  have h0 : ((⌊q⌋ : ℤ) : ℚ) ≤ q := Int.floor_le q
  have h1 : q < (⌊q⌋ : ℚ) + 1 := Int.lt_floor_add_one q
  split_ifs with ha hb hc
  · rw [abs_le]; constructor <;> linarith
  · rw [abs_le]; push_cast; constructor <;> linarith
  · rw [abs_le]; constructor <;> linarith
  · rw [abs_le]; push_cast; constructor <;> linarith

theorem abs_round2_sub_le (q : ℚ) : |round2 q - q| ≤ 1 / 200 := by
  rw [round2]
  rw [show (roundHalfEven (q * 100) : ℚ) / 100 - q =
    ((roundHalfEven (q * 100) : ℚ) - q * 100) / 100 by ring]
  rw [abs_div, show |(100 : ℚ)| = 100 by norm_num]
  have h := abs_roundHalfEven_sub_le (q * 100)
  linarith

theorem sum_map_add_nat {α : Type} (l : List α) (f g : α → Nat) :
    (l.map (fun a => f a + g a)).sum = (l.map f).sum + (l.map g).sum := by
  induction l with
  | nil => simp
  | cons a l ih => simp [ih]; omega

theorem sum_indicator_zero {α : Type} [DecidableEq α] (keys : List α) (x : α)
    (hx : x ∉ keys) :
    (keys.map (fun a => if a = x then 1 else 0)).sum = 0 := by
  induction keys with
  | nil => simp
  | cons k ks ih =>
      have hk : k ≠ x := fun hc => hx (hc ▸ List.mem_cons_self k ks)
      have hks : x ∉ ks := fun hc => hx (List.mem_cons_of_mem _ hc)
      simp only [List.map_cons, List.sum_cons, if_neg hk, ih hks]

theorem sum_indicator_nodup {α : Type} [DecidableEq α] (keys : List α) (x : α)
    (hnd : keys.Nodup) (hx : x ∈ keys) :
    (keys.map (fun a => if a = x then 1 else 0)).sum = 1 := by
  induction keys with
  | nil => simp at hx
  | cons k ks ih =>
      have hnd2 := List.nodup_cons.mp hnd
      rcases List.mem_cons.mp hx with h1 | h2
      · subst h1
        simp only [List.map_cons, List.sum_cons, if_pos rfl]
        rw [sum_indicator_zero ks x hnd2.1]
        simp
      · have hk : k ≠ x := fun hc => hnd2.1 (hc ▸ h2)
        simp only [List.map_cons, List.sum_cons, if_neg hk, ih hnd2.2 h2]

/-- Counting every key of a nodup cover exhausts the list. -/
theorem sum_count_eq_length {α : Type} [DecidableEq α] (keys : List α) :
    ∀ l : List α, keys.Nodup → (∀ a ∈ l, a ∈ keys) →
      (keys.map (fun a => l.count a)).sum = l.length := by
  intro l
  induction l with
  | nil => intro _ _; simp
  | cons x l ih =>
      intro hnd hcov
      have hx : x ∈ keys := hcov x (List.mem_cons_self _ _)
      have hcov2 : ∀ a ∈ l, a ∈ keys :=
        fun a ha => hcov a (List.mem_cons_of_mem _ ha)
      have hpt : keys.map (fun a => (x :: l).count a) =
          keys.map (fun a => l.count a + if a = x then 1 else 0) := by
        apply List.map_congr_left
        intro a _
        rw [List.count_cons]
        by_cases hax : a = x
        · subst hax; simp
        · simp [hax, Ne.symm hax]
      rw [hpt, sum_map_add_nat, sum_indicator_nodup keys x hnd hx,
        ih hnd hcov2, List.length_cons]

theorem abs_sum_sub_sum_le {α : Type} (l : List α) (f g : α → ℚ) (b : ℚ)
    (hb : ∀ a ∈ l, |f a - g a| ≤ b) :
    |(l.map f).sum - (l.map g).sum| ≤ l.length * b := by
  induction l with
  | nil => simp
  | cons a l ih =>
      simp only [List.map_cons, List.sum_cons, List.length_cons]
      have h1 := hb a (List.mem_cons_self a l)
      have h2 := ih (fun x hx => hb x (List.mem_cons_of_mem _ hx))
      have h3 : f a + (l.map f).sum - (g a + (l.map g).sum) =
          (f a - g a) + ((l.map f).sum - (l.map g).sum) := by ring
      rw [h3]
      have h4 := abs_add (f a - g a) ((l.map f).sum - (l.map g).sum)
      push_cast
      linarith

/-- The counts of the distribution engine, summed over the distinct codes,
equal the collection size. -/
theorem sum_countSent (records : List Record) :
    ((sentimentCodes records).map (fun c => countSent records c)).sum =
      records.length := by
  have hperm : List.Perm (sentimentCodes records)
      (uniqKeys (records.map (fun r => r.sentiment))) :=
    List.perm_insertionSort _ _
  rw [(hperm.map (fun c => countSent records c)).sum_eq]
  rw [show (fun c => countSent records c) =
    (fun c => (records.map (fun r => r.sentiment)).count c) from rfl]
  rw [sum_count_eq_length _ _ (nodup_uniqKeys _)
    (fun a ha => (mem_uniqKeys _ a).mpr ha)]
  exact List.length_map _ _

/-- C8: on a valid non-empty collection, every percentage equals
count/total×100 rounded (half-even) to 2 decimals, and the percentages over
the present codes sum to within 0.1 of 100. -/
theorem percentages_sum_spec (records : List Record)
    (res : DistributionResult)
    (h : analyze_sentiment_distribution records = .ok res)
    (hvalid : ∀ r ∈ records, r.sentiment = -1 ∨ r.sentiment = 0 ∨
      r.sentiment = 1 ∨ r.sentiment = 2) :
    res.sentiment_percentages = (sentimentCounts records).map
      (fun p => (p.1, round2 ((p.2 : ℚ) / (records.length : ℚ) * 100))) ∧
    |((res.sentiment_percentages.map Prod.snd).sum) - 100| ≤ 1 / 10 := by
  -- extract the success shape
  rw [analyze_sentiment_distribution] at h
  cases hp : firstMax (sentimentCounts records) with
  | none => rw [hp] at h; exact Except.noConfusion h
  | some p =>
      cases hq : firstMax (labelCounts records) with
      | none => rw [hp, hq] at h; exact Except.noConfusion h
      | some q =>
          rw [hp, hq] at h
          have hres : res = distResult records p.1 q.1 :=
            (Except.ok.injEq _ _ ▸ h).symm
          have hne : records ≠ [] := by
            intro hcon
            subst hcon
            exact Option.noConfusion hp
          have hperc : res.sentiment_percentages = (sentimentCounts records).map
              (fun pr => (pr.1, round2 ((pr.2 : ℚ) / (records.length : ℚ) * 100))) := by
            rw [hres]; rfl
          refine ⟨hperc, ?_⟩
          rw [hperc]
          have hT0 : 0 < records.length := List.length_pos.mpr hne
          have hTne : (records.length : ℚ) ≠ 0 := by
            exact_mod_cast Nat.pos_iff_ne_zero.mp hT0
          -- snd of the percentage pairs, as a map over the sorted code list
          have hsnd : ((sentimentCounts records).map
              (fun pr => (pr.1, round2 ((pr.2 : ℚ) / (records.length : ℚ) * 100)))).map
                Prod.snd =
              (sentimentCodes records).map
                (fun c => round2 ((countSent records c : ℚ) /
                  (records.length : ℚ) * 100)) := by
            rw [sentimentCounts, List.map_map, List.map_map]
            rfl
          rw [hsnd]
          -- the exact percentages sum to 100
          have htrue : ((sentimentCodes records).map
              (fun c => (countSent records c : ℚ) /
                (records.length : ℚ) * 100)).sum = 100 := by
            have hstep : (sentimentCodes records).map
                (fun c => (countSent records c : ℚ) /
                  (records.length : ℚ) * 100) =
                (sentimentCodes records).map
                  (fun c => (countSent records c : ℚ) *
                    (100 / (records.length : ℚ))) := by
              apply List.map_congr_left
              intro c _
              ring
            rw [hstep, List.sum_map_mul_right]
            have hcast : ((sentimentCodes records).map
                (fun c => (countSent records c : ℚ))).sum =
                (((sentimentCodes records).map
                  (fun c => countSent records c)).sum : ℚ) := by
              rw [Nat.cast_list_sum, List.map_map]
              rfl
            rw [hcast, sum_countSent records]
            field_simp
          -- each rounded percentage is within 1/200 of the exact one
          have hbound := abs_sum_sub_sum_le (sentimentCodes records)
            (fun c => round2 ((countSent records c : ℚ) /
              (records.length : ℚ) * 100))
            (fun c => (countSent records c : ℚ) / (records.length : ℚ) * 100)
            (1 / 200) (fun c _ => abs_round2_sub_le _)
          rw [htrue] at hbound
          -- at most four distinct codes
          have hsub : (sentimentCodes records).toFinset ⊆
              ([-1, 0, 1, 2] : List Int).toFinset := by
            intro c hc
            rw [List.mem_toFinset] at hc ⊢
            rw [mem_sentimentCodes] at hc
            obtain ⟨r, hr, hrc⟩ := List.mem_map.mp hc
            rcases hvalid r hr with h4 | h4 | h4 | h4 <;>
              rw [← hrc, h4] <;> simp
          have hcard := Finset.card_le_card hsub
          rw [List.toFinset_card_of_nodup (sentimentCodes_nodup records)]
            at hcard
          have hc2 : ([-1, 0, 1, 2] : List Int).toFinset.card = 4 := by decide
          have hcard4 : (sentimentCodes records).length ≤ 4 := by omega
          have hlenb : ((sentimentCodes records).length : ℚ) * (1 / 200) ≤
              4 * (1 / 200) := by
            have hle : ((sentimentCodes records).length : ℚ) ≤ 4 := by
              exact_mod_cast hcard4
            linarith
          calc |((sentimentCodes records).map
              (fun c => round2 ((countSent records c : ℚ) /
                (records.length : ℚ) * 100))).sum - 100|
              ≤ (sentimentCodes records).length * (1 / 200) := hbound
            _ ≤ 4 * (1 / 200) := hlenb
            _ ≤ 1 / 10 := by norm_num

def exC8 : List Record :=
  [{ message := "a", sentiment := 1, sentiment_label := "Pro"
     text_length := 1, word_count := 1 },
   { message := "b", sentiment := 1, sentiment_label := "Pro"
     text_length := 1, word_count := 1 },
   { message := "c", sentiment := -1, sentiment_label := "Anti"
     text_length := 1, word_count := 1 }]

theorem percentages_sum_spec_witness :
    |(((distResult exC8 1 "Pro").sentiment_percentages.map Prod.snd).sum) -
      100| ≤ 1 / 10 :=
  (percentages_sum_spec exC8 (distResult exC8 1 "Pro") rfl
    (by decide)).2

end SentimentAnalysis
